import Mathlib

/-!
# EnvEnc — a shallow embedding of `src/src/lib.rs`

Rust strings are UTF-8 byte sequences; we model them (and all byte buffers,
`Vec<u8>` / `&[u8]`) as `List Nat` with every byte below 256 where the code
produces one.  Fallible operations (Rust `panic!` / `expect`, and `Result`
errors) become `Option` / `Except`.  The process environment and the thread
RNG become explicit state.  The AEAD primitives (ChaCha20-Poly1305,
AES-256-GCM) and the hash used for password derivation live in external
crates, not in this repository; they are modelled from the spec's contract
for them (see the `Modelled from the spec:` doc comments).
-/

namespace EnvEnc

/-- ASCII bytes of a Lean string literal (all literals used here are ASCII).
Mirrors Rust's `str::as_bytes` on ASCII content. -/
def bytesOfAscii (s : String) : List Nat :=
  s.data.map (fun c => c.toNat)

/-! ## Hex encoding (the `hex` crate: `hex::encode`, `hex::decode`) -/

/-- `hex::encode` emits two lowercase hex digits per byte; byte value `d < 16`
becomes ASCII `0`..`9` (48..57) or `a`..`f` (97..102). -/
def hexDigitChar (d : Nat) : Nat :=
  if d < 10 then 48 + d else 97 + (d - 10)

/-- Model of `hex::encode`: each byte to two lowercase hex digits
(high nibble first). -/
def hexEncode : List Nat → List Nat
  | [] => []
  | b :: rest => hexDigitChar (b / 16 % 16) :: hexDigitChar (b % 16) :: hexEncode rest

/-- The value of one ASCII hex digit (`0-9`, `a-f`, `A-F`), or `none`. -/
def hexDigitVal (c : Nat) : Option Nat :=
  if 48 ≤ c ∧ c ≤ 57 then some (c - 48)
  else if 97 ≤ c ∧ c ≤ 102 then some (c - 87)
  else if 65 ≤ c ∧ c ≤ 70 then some (c - 55)
  else none

/-- Model of `hex::decode`: fails on odd length or any non-hex-digit byte. -/
def hexDecode : List Nat → Option (List Nat)
  | [] => some []
  | [_] => none
  | c1 :: c2 :: rest =>
    match hexDigitVal c1, hexDigitVal c2, hexDecode rest with
    | some hi, some lo, some tl => some ((hi * 16 + lo) :: tl)
    | _, _, _ => none

/-! ## CipherType (`src/src/lib.rs` lines 111-140) -/

/-- `enum CipherType` of `src/src/lib.rs` lines 111-115. -/
inductive CipherType where
  | ChaCha20Poly1305
  | AES256GCM
deriving DecidableEq

/-- `CipherType::key_size` (`src/src/lib.rs` lines 118-123). -/
def CipherType.key_size : CipherType → Nat
  | .ChaCha20Poly1305 => 32
  | .AES256GCM => 32

/-- `CipherType::nonce_size` (`src/src/lib.rs` lines 125-130). -/
def CipherType.nonce_size : CipherType → Nat
  | .ChaCha20Poly1305 => 12
  | .AES256GCM => 12

/-- The `Display` impl (`src/src/lib.rs` lines 133-140), as UTF-8 bytes. -/
def CipherType.display : CipherType → List Nat
  | .ChaCha20Poly1305 => bytesOfAscii "CHACHA20POLY1305"
  | .AES256GCM => bytesOfAscii "AES256GCM"

/-! ## Byte-string helpers used by the store parser -/

/-- ASCII whitespace recognised by Rust's `str::trim` (the Unicode whitespace
characters representable in one UTF-8 byte): space and `\t \n \v \f \r`. -/
def isWhitespaceByte (b : Nat) : Bool :=
  b = 32 || (9 ≤ b && b ≤ 13)

/-- Model of `str::trim`: drop leading and trailing whitespace bytes. -/
def trim (s : List Nat) : List Nat :=
  ((s.dropWhile isWhitespaceByte).reverse.dropWhile isWhitespaceByte).reverse

/-- Model of `str::split_once(sep)`: split at the first occurrence of `sep`,
`none` when `sep` does not occur. -/
def splitOnce (sep : Nat) : List Nat → Option (List Nat × List Nat)
  | [] => none
  | b :: rest =>
    if b = sep then some ([], rest)
    else (splitOnce sep rest).map (fun p => (b :: p.1, p.2))

/-- Segments of `s` between occurrences of `sep` (always nonempty: `n`
separators give `n + 1` segments). -/
def splitOnByte (sep : Nat) : List Nat → List (List Nat)
  | [] => [[]]
  | b :: rest =>
    if b = sep then [] :: splitOnByte sep rest
    else
      match splitOnByte sep rest with
      | [] => [[b]]
      | l :: ls => (b :: l) :: ls

/-- Drop one trailing carriage return, as Rust's line iterators do on the
text before each `\n`. -/
def stripCR (l : List Nat) : List Nat :=
  if l.getLast? = some 13 then l.dropLast else l

/-- Model of Rust's `str::lines` / `BufRead::lines`: split on `\n`, strip a
`\r` before each `\n`, and do not yield a final empty line when the text ends
with `\n` (an unterminated final line is yielded as-is, `\r` included). -/
def rustLines (s : List Nat) : List (List Nat) :=
  let segs := splitOnByte 10 s
  let body := (segs.dropLast).map stripCR
  match segs.getLast? with
  | some [] => body
  | some l => body ++ [l]
  | none => body

/-! ## The `HashMap<String, String>` of the store, as an association list.
Rust's `HashMap` has no iteration order; the list order here stands for one
such order (insertion order). -/

/-- `HashMap::insert`: replace in place when the key is present, else append. -/
def insertMap : List (List Nat × List Nat) → List Nat → List Nat → List (List Nat × List Nat)
  | [], k, v => [(k, v)]
  | (k', v') :: rest, k, v =>
    if k' = k then (k, v) :: rest else (k', v') :: insertMap rest k v

/-- `HashMap::get` / `contains_key`: the value stored under `k`, if any. -/
def lookupMap : List (List Nat × List Nat) → List Nat → Option (List Nat)
  | [], _ => none
  | (k', v') :: rest, k =>
    if k' = k then some v' else lookupMap rest k

/-- One iteration of the parsing loop shared by `read_env_enc`
(`src/src/lib.rs` lines 372-376) and `set_enc_env` (lines 323-330):
`line.split_once('=')` and, on success, insert the trimmed parts. -/
def parseLine (m : List (List Nat × List Nat)) (line : List Nat) :
    List (List Nat × List Nat) :=
  match splitOnce 61 line with
  | some (k, v) => insertMap m (trim k) (trim v)
  | none => m

/-- Parse a whole file's lines into the mapping. -/
def parseLines (ls : List (List Nat)) : List (List Nat × List Nat) :=
  ls.foldl parseLine []

/-- `read_env_enc` (`src/src/lib.rs` lines 367-379).  The file's content is
passed explicitly, `none` when `fs::read_to_string(".env")` fails (absent or
unreadable file).  The `dotenv().ok()` call only mutates the process
environment and does not affect the returned mapping, so it is not modelled
here. -/
def read_env_enc (content : Option (List Nat)) : List (List Nat × List Nat) :=
  match content with
  | some s => parseLines (rustLines s)
  | none => []

/-! ## The AEAD engine

Modelled from the spec: the ChaCha20-Poly1305 and AES-256-GCM constructions
live in the `chacha20poly1305` / `aes_gcm` crates, not in this repository.
The spec's contract for them (§6): opaque trusted operations satisfying the
standard AEAD interface — `encrypt(key, nonce, plaintext)` yields
`ciphertext ‖ tag` (16-byte tag) and `decrypt` verifies the tag, failing on
tampering, wrong key or wrong nonce.  The model below realises that shape
with an invertible keystream mask and a recomputable 16-byte tag; `c` is a
per-suite constant so the two suites are distinct functions. -/

/-- One keystream byte for position `i`, derived from key and nonce. -/
def ksByte (c : Nat) (key nonce : List Nat) (i : Nat) : Nat :=
  (c + key.sum * 131 + nonce.sum * 29 + i * 7) % 256

/-- Add the keystream to the plaintext bytewise, mod 256, from position `i`. -/
def maskBytes (f : Nat → Nat) : Nat → List Nat → List Nat
  | _, [] => []
  | i, b :: bs => (b + f i) % 256 :: maskBytes f (i + 1) bs

/-- Subtract the keystream bytewise, mod 256: the inverse of `maskBytes` on
byte values. -/
def unmaskBytes (f : Nat → Nat) : Nat → List Nat → List Nat
  | _, [] => []
  | i, b :: bs => (b + 256 - f i % 256) % 256 :: unmaskBytes f (i + 1) bs

/-- The 16-byte authentication tag over the ciphertext body. -/
def tagBytes (c : Nat) (key nonce body : List Nat) : List Nat :=
  (List.range 16).map
    (fun i => (c * 3 + key.sum * 7 + nonce.sum * 11 + body.sum * 13 + body.length * 17 + i) % 256)

/-- Modelled from the spec: single-shot AEAD encryption (`aead::Aead::encrypt`
with correctly sized key and nonce) — masked plaintext followed by the tag. -/
def aeadEncrypt (c : Nat) (key nonce plaintext : List Nat) : List Nat :=
  let body := maskBytes (ksByte c key nonce) 0 plaintext
  body ++ tagBytes c key nonce body

/-- Modelled from the spec: single-shot AEAD decryption — split off the
16-byte tag, verify it, unmask; `none` when the input is too short or the
tag does not verify. -/
def aeadDecrypt (c : Nat) (key nonce ciphertext : List Nat) : Option (List Nat) :=
  if ciphertext.length < 16 then none
  else
    let body := ciphertext.take (ciphertext.length - 16)
    let tag := ciphertext.drop (ciphertext.length - 16)
    if tag = tagBytes c key nonce body then
      some (unmaskBytes (ksByte c key nonce) 0 body)
    else none

/-- The per-suite constant selecting the primitive (the two match arms of the
source dispatch). -/
def suiteConst : CipherType → Nat
  | .ChaCha20Poly1305 => 1
  | .AES256GCM => 2

/-- `encrypt` (`src/src/lib.rs` lines 221-236).  Each arm builds the cipher
from `Key::from_slice(key)` and `Nonce::from_slice(nonce)`, which panic
unless the slice lengths are exactly the suite's key/nonce sizes; with the
sizes right the primitive's encrypt always succeeds.  All failure is `none`. -/
def encrypt (cipher_type : CipherType) (key nonce plaintext : List Nat) :
    Option (List Nat) :=
  match cipher_type with
  | .ChaCha20Poly1305 =>
    if key.length = 32 ∧ nonce.length = 12 then
      some (aeadEncrypt (suiteConst .ChaCha20Poly1305) key nonce plaintext)
    else none
  | .AES256GCM =>
    if key.length = 32 ∧ nonce.length = 12 then
      some (aeadEncrypt (suiteConst .AES256GCM) key nonce plaintext)
    else none

/-- `decrypt` (`src/src/lib.rs` lines 266-281).  Same length enforcement via
`from_slice`; the primitive's decrypt fails when the tag does not verify
(the source's `expect("decryption failure!")` panic is `none` here). -/
def decrypt (cipher_type : CipherType) (key nonce ciphertext : List Nat) :
    Option (List Nat) :=
  match cipher_type with
  | .ChaCha20Poly1305 =>
    if key.length = 32 ∧ nonce.length = 12 then
      aeadDecrypt (suiteConst .ChaCha20Poly1305) key nonce ciphertext
    else none
  | .AES256GCM =>
    if key.length = 32 ∧ nonce.length = 12 then
      aeadDecrypt (suiteConst .AES256GCM) key nonce ciphertext
    else none

/-! ## UTF-8 validation (`String::from_utf8`) -/

/-- Whether `b` is a UTF-8 continuation byte (`0x80..0xBF`). -/
def isCont (b : Nat) : Bool := 128 ≤ b && b ≤ 191

/-- Model of Rust's UTF-8 validation (`String::from_utf8` succeeds exactly on
valid UTF-8): RFC 3629 sequences, rejecting overlong forms, surrogates and
code points above `U+10FFFF`. -/
def isValidUtf8 : List Nat → Bool
  | [] => true
  | b :: rest =>
    if b ≤ 127 then isValidUtf8 rest
    else if 194 ≤ b && b ≤ 223 then
      match rest with
      | b2 :: r => isCont b2 && isValidUtf8 r
      | [] => false
    else if b = 224 then
      match rest with
      | b2 :: b3 :: r => (160 ≤ b2 && b2 ≤ 191) && isCont b3 && isValidUtf8 r
      | _ => false
    else if (225 ≤ b && b ≤ 236) || b = 238 || b = 239 then
      match rest with
      | b2 :: b3 :: r => isCont b2 && isCont b3 && isValidUtf8 r
      | _ => false
    else if b = 237 then
      match rest with
      | b2 :: b3 :: r => (128 ≤ b2 && b2 ≤ 159) && isCont b3 && isValidUtf8 r
      | _ => false
    else if b = 240 then
      match rest with
      | b2 :: b3 :: b4 :: r =>
        (144 ≤ b2 && b2 ≤ 191) && isCont b3 && isCont b4 && isValidUtf8 r
      | _ => false
    else if 241 ≤ b && b ≤ 243 then
      match rest with
      | b2 :: b3 :: b4 :: r => isCont b2 && isCont b3 && isCont b4 && isValidUtf8 r
      | _ => false
    else if b = 244 then
      match rest with
      | b2 :: b3 :: b4 :: r =>
        (128 ≤ b2 && b2 ≤ 143) && isCont b3 && isCont b4 && isValidUtf8 r
      | _ => false
    else false

/-! ## `set_enc_env` (`src/src/lib.rs` lines 305-352) -/

/-- The file rewrite of `set_enc_env` lines 340-350: one `name=value\n` line
per mapping entry (`writeln!`). -/
def writeEnvFile (m : List (List Nat × List Nat)) : List Nat :=
  m.foldr (fun p acc => p.1 ++ 61 :: (p.2 ++ 10 :: acc)) []

/-- `set_enc_env` (`src/src/lib.rs` lines 305-352).  The `.env` file's
content is passed in (`none` when `File::open` fails) and the resulting file
content is returned with the "already exists" flag; `none` models the
panics (encryption failure, I/O failure on write).  Steps: encrypt the
value, hex-encode `nonce ‖ ciphertext`, parse the existing file, and either
report an existing name (file untouched) or insert and rewrite the whole
file. -/
def set_enc_env (var_name var_text : List Nat) (cipher_type : CipherType)
    (key nonce : List Nat) (file : Option (List Nat)) :
    Option (Option (List Nat) × Bool) :=
  match encrypt cipher_type key nonce var_text with
  | none => none
  | some ciphertext =>
    let combined := nonce ++ ciphertext
    let encrypted_value := hexEncode combined
    let env_vars :=
      match file with
      | some s => parseLines (rustLines s)
      | none => []
    if (lookupMap env_vars var_name).isSome then
      some (file, true)
    else
      some (some (writeEnvFile (insertMap env_vars var_name encrypted_value)), false)

/-! ## `decrypt_env` (`src/src/lib.rs` lines 402-426) -/

/-- The two panics that abort the whole `decrypt_env` batch. -/
inductive FatalError where
  | decryptionFailure
  | invalidUtf8
deriving DecidableEq

/-- `decrypt_env` (`src/src/lib.rs` lines 402-426).  The mapping is given in
some iteration order; the result is the list of `(name, plaintext)` pairs
set into the process environment.  An entry whose value is not hex, or whose
decoded payload is shorter than the suite's nonce size, is skipped with a
warning and the loop continues; a primitive decryption failure or invalid
UTF-8 in the decrypted bytes is a panic (`Except.error`).  The `_nonce`
parameter is in the signature but unused: the nonce is the first
`nonce_size` bytes of the decoded payload, the ciphertext the rest. -/
def decrypt_env (env_vars : List (List Nat × List Nat)) (cipher_type : CipherType)
    (key : List Nat) (_nonce : List Nat) :
    Except FatalError (List (List Nat × List Nat)) :=
  match env_vars with
  | [] => .ok []
  | (var_name, enc_value) :: rest =>
    match hexDecode enc_value with
    | some combined =>
      if combined.length < cipher_type.nonce_size then
        decrypt_env rest cipher_type key _nonce
      else
        let nonce_used := combined.take cipher_type.nonce_size
        let ciphertext := combined.drop cipher_type.nonce_size
        match decrypt cipher_type key nonce_used ciphertext with
        | none => .error .decryptionFailure
        | some decrypted =>
          if isValidUtf8 decrypted then
            (decrypt_env rest cipher_type key _nonce).map
              (fun r => (var_name, decrypted) :: r)
          else .error .invalidUtf8
    | none => decrypt_env rest cipher_type key _nonce

/-! ## `keys_generation` (`src/src/lib.rs` lines 164-193) -/

/-- The explicit system state: the process environment (an association list,
as for the store) and the thread RNG, modelled as a byte stream `rng` read
from position `cursor` on. -/
structure SysState where
  env : List (List Nat × List Nat)
  rng : Nat → Nat
  cursor : Nat

/-- `size` fresh random bytes (`thread_rng().fill_bytes` into a `vec![0u8;
size]`): the next `size` stream bytes. -/
def genBytes (st : SysState) (size : Nat) : List Nat :=
  (List.range size).map (fun i => st.rng (st.cursor + i) % 256)

/-- `format!("{}_KEY", cipher_type)` (`src/src/lib.rs` line 165). -/
def keyVarName (cipher_type : CipherType) : List Nat :=
  cipher_type.display ++ bytesOfAscii "_KEY"

/-- `format!("{}_NONCE", cipher_type)` (`src/src/lib.rs` line 166). -/
def nonceVarName (cipher_type : CipherType) : List Nat :=
  cipher_type.display ++ bytesOfAscii "_NONCE"

/-- One field of `keys_generation`: the two match blocks at
`src/src/lib.rs` lines 168-178 (key) and 180-190 (nonce) are textually the
same shape, captured once here.  If the environment variable is present its
value must be valid hex (`expect("Invalid ... hex")` panics otherwise, hence
`none`) and the decoded bytes are returned with the state unchanged;
otherwise `size` fresh random bytes are generated, hex-encoded into the
variable, and returned. -/
def cachedOrGenerate (var : List Nat) (size : Nat) (st : SysState) :
    Option (List Nat × SysState) :=
  match lookupMap st.env var with
  | some hexv =>
    match hexDecode hexv with
    | some bytes => some (bytes, st)
    | none => none
  | none =>
    let bytes := genBytes st size
    some (bytes,
      { env := insertMap st.env var (hexEncode bytes),
        rng := st.rng,
        cursor := st.cursor + size })

/-- `keys_generation` (`src/src/lib.rs` lines 164-193): the key field first,
then the nonce field against the updated state. -/
def keys_generation (cipher_type : CipherType) (st : SysState) :
    Option ((List Nat × List Nat) × SysState) :=
  match cachedOrGenerate (keyVarName cipher_type) cipher_type.key_size st with
  | none => none
  | some (key, st1) =>
    match cachedOrGenerate (nonceVarName cipher_type) cipher_type.nonce_size st1 with
    | none => none
    | some (nonce, st2) => some ((key, nonce), st2)

/-! ## Password derivation

Modelled from the spec: the repository's second variant (the derivation
strategy of spec §4.2, not among the files under `src/`) computes
`deriveKey(password)` and `deriveNonce(password)` by hashing the password
with a fixed one-way hash (SHA-256, an external primitive) and truncating
the same digest — first 32 bytes for the key, first 12 for the nonce. -/

/-- Modelled from the spec: the fixed 32-byte digest of the external hash
primitive, as a deterministic executable function of the password bytes. -/
def hashDigest (password : List Nat) : List Nat :=
  (List.range 32).map
    (fun i => (password.sum * 31 + password.length * 17 + i * 97 + 7) % 256)

/-- Modelled from the spec: `deriveKey(password)` = first 32 digest bytes. -/
def deriveKey (password : List Nat) : List Nat :=
  (hashDigest password).take 32

/-- Modelled from the spec: `deriveNonce(password)` = first 12 digest bytes. -/
def deriveNonce (password : List Nat) : List Nat :=
  (hashDigest password).take 12

/-- A concrete state for the `keys_generation` counterexample: the
ChaCha20-Poly1305 key variable holds the hex of 32 zero bytes, the nonce
variable is absent, and the RNG stream is constantly 1. -/
def stX : SysState :=
  { env := [(keyVarName .ChaCha20Poly1305, hexEncode (List.replicate 32 0))],
    rng := fun _ => 1,
    cursor := 0 }

/-! ## Helper lemmas -/

theorem hexDigitVal_hexDigitChar : ∀ d : Nat, d < 16 → hexDigitVal (hexDigitChar d) = some d := by
  decide

theorem mem_hexEncode (bs : List Nat) :
    ∀ c ∈ hexEncode bs, (48 ≤ c ∧ c ≤ 57) ∨ (97 ≤ c ∧ c ≤ 102) := by
  induction bs with
  | nil => simp [hexEncode]
  | cons b rest ih =>
    intro c hc
    simp only [hexEncode, List.mem_cons] at hc
    rcases hc with h | h | h
    · subst h; unfold hexDigitChar; split <;> omega
    · subst h; unfold hexDigitChar; split <;> omega
    · exact ih c h

theorem hexDecode_hexEncode (bs : List Nat) (h : ∀ b ∈ bs, b < 256) :
    hexDecode (hexEncode bs) = some bs := by
  induction bs with
  | nil => rfl
  | cons b rest ih =>
    have hb : b < 256 := h b (List.mem_cons_self b rest)
    have h1 : b / 16 % 16 < 16 := by omega
    have h2 : b % 16 < 16 := by omega
    have hr := ih (fun x hx => h x (List.mem_cons_of_mem _ hx))
    simp only [hexEncode, hexDecode, hexDigitVal_hexDigitChar _ h1,
      hexDigitVal_hexDigitChar _ h2, hr]
    have : b / 16 % 16 * 16 + b % 16 = b := by omega
    rw [this]

theorem unmaskBytes_maskBytes (f : Nat → Nat) :
    ∀ (p : List Nat) (i : Nat), (∀ b ∈ p, b < 256) →
      unmaskBytes f i (maskBytes f i p) = p := by
  intro p
  induction p with
  | nil => intro i _; rfl
  | cons b bs ih =>
    intro i h
    have hb : b < 256 := h b (List.mem_cons_self b bs)
    have hrest : ∀ x ∈ bs, x < 256 := fun x hx => h x (List.mem_cons_of_mem _ hx)
    simp only [maskBytes, unmaskBytes, ih (i + 1) hrest, List.cons.injEq, and_true]
    omega

theorem tagBytes_length (c : Nat) (key nonce body : List Nat) :
    (tagBytes c key nonce body).length = 16 := by
  simp [tagBytes]

theorem aeadDecrypt_aeadEncrypt (c : Nat) (key nonce p : List Nat)
    (hp : ∀ b ∈ p, b < 256) :
    aeadDecrypt c key nonce (aeadEncrypt c key nonce p) = some p := by
  unfold aeadEncrypt aeadDecrypt
  simp only [List.length_append, tagBytes_length]
  rw [if_neg (by omega)]
  have hb : (maskBytes (ksByte c key nonce) 0 p).length + 16 - 16
      = (maskBytes (ksByte c key nonce) 0 p).length := by omega
  rw [hb, List.take_left, List.drop_left, if_pos rfl,
    unmaskBytes_maskBytes _ _ _ hp]

/-! ## C1 -/

/-- C1: for every supported cipher suite, every key of the suite's key size,
every nonce of the suite's nonce size, and every plaintext byte string,
`decrypt(suite, key, nonce, encrypt(suite, key, nonce, plaintext))` returns
the plaintext. -/
theorem decrypt_encrypt_roundtrip (ct : CipherType) (key nonce p : List Nat)
    (hk : key.length = ct.key_size) (hn : nonce.length = ct.nonce_size)
    (hp : ∀ b ∈ p, b < 256) :
    (encrypt ct key nonce p).bind (decrypt ct key nonce) = some p := by
  cases ct <;>
    simp only [encrypt, decrypt, CipherType.key_size, CipherType.nonce_size] at hk hn ⊢ <;>
    rw [if_pos ⟨hk, hn⟩, Option.some_bind, if_pos ⟨hk, hn⟩] <;>
    exact aeadDecrypt_aeadEncrypt _ _ _ _ hp

/-- C1 witness: a concrete round trip through ChaCha20-Poly1305. -/
theorem decrypt_encrypt_roundtrip_witness :
    (encrypt .ChaCha20Poly1305 (List.replicate 32 0) (List.replicate 12 0) [104, 105]).bind
      (decrypt .ChaCha20Poly1305 (List.replicate 32 0) (List.replicate 12 0)) =
      some [104, 105] :=
  decrypt_encrypt_roundtrip _ _ _ _ (by decide) (by decide) (by decide)

/-! ## C9 -/

/-- C9: `encrypt` fails whenever the key or nonce length does not match the
suite's required sizes, and succeeds (returns a ciphertext) when both
lengths match. -/
theorem encrypt_length_enforcement (ct : CipherType) (key nonce p : List Nat) :
    (encrypt ct key nonce p).isSome = true ↔
      (key.length = ct.key_size ∧ nonce.length = ct.nonce_size) := by
  cases ct <;> unfold encrypt <;> split <;>
    simp_all [CipherType.key_size, CipherType.nonce_size]

/-! ## C6 -/

/-- C6: `deriveKey` returns 32 bytes and `deriveNonce` 12 bytes, both
truncations of the same fixed digest of the password (the nonce is a prefix
of the key's source digest), and derivation from the password `"hunter2"`
is deterministic. -/
theorem derive_key_nonce_spec :
    (∀ pw, (deriveKey pw).length = 32) ∧
    (∀ pw, (deriveNonce pw).length = 12) ∧
    (∀ pw, deriveNonce pw = (deriveKey pw).take 12) ∧
    deriveKey (bytesOfAscii "hunter2") = deriveKey (bytesOfAscii "hunter2") := by
  refine ⟨fun pw => ?_, fun pw => ?_, fun pw => ?_, rfl⟩
  · simp [deriveKey, hashDigest]
  · simp [deriveNonce, hashDigest]
  · simp [deriveKey, deriveNonce, List.take_take]

/-! ## Lemmas on the environment map and `cachedOrGenerate` -/

theorem lookupMap_insertMap_self (m : List (List Nat × List Nat)) (k v : List Nat) :
    lookupMap (insertMap m k v) k = some v := by
  induction m with
  | nil => simp [insertMap, lookupMap]
  | cons p rest ih =>
    obtain ⟨k', v'⟩ := p
    unfold insertMap
    split
    · simp [lookupMap]
    · rename_i hne
      unfold lookupMap
      rw [if_neg hne]
      exact ih

theorem lookupMap_insertMap_ne (m : List (List Nat × List Nat)) (k v w : List Nat)
    (hw : w ≠ k) :
    lookupMap (insertMap m k v) w = lookupMap m w := by
  induction m with
  | nil =>
    simp only [insertMap, lookupMap]
    rw [if_neg (fun h => hw h.symm)]
  | cons p rest ih =>
    obtain ⟨k', v'⟩ := p
    unfold insertMap
    split
    · rename_i hk
      subst hk
      unfold lookupMap
      rw [if_neg (fun h => hw h.symm), if_neg (fun h => hw h.symm)]
    · unfold lookupMap
      split
      · rfl
      · exact ih

theorem genBytes_lt (st : SysState) (size : Nat) :
    ∀ b ∈ genBytes st size, b < 256 := by
  intro b hb
  simp only [genBytes, List.mem_map] at hb
  obtain ⟨i, _, hi⟩ := hb
  omega

theorem keyVarName_ne_nonceVarName (ct : CipherType) :
    keyVarName ct ≠ nonceVarName ct := by
  cases ct <;> decide

theorem cachedOrGenerate_cached {var : List Nat} {size : Nat} {st : SysState}
    {hexv bs : List Nat} (h1 : lookupMap st.env var = some hexv)
    (h2 : hexDecode hexv = some bs) :
    cachedOrGenerate var size st = some (bs, st) := by
  simp [cachedOrGenerate, h1, h2]

theorem cachedOrGenerate_stable {var : List Nat} {size : Nat} {st st' : SysState}
    {bs : List Nat} (h : cachedOrGenerate var size st = some (bs, st')) :
    ∃ hexv, lookupMap st'.env var = some hexv ∧ hexDecode hexv = some bs := by
  cases hl : lookupMap st.env var with
  | some hexv =>
    cases hd : hexDecode hexv with
    | some bytes =>
      simp only [cachedOrGenerate, hl, hd, Option.some.injEq, Prod.mk.injEq] at h
      obtain ⟨h1, h2⟩ := h
      subst h1
      subst h2
      exact ⟨hexv, hl, hd⟩
    | none => simp [cachedOrGenerate, hl, hd] at h
  | none =>
    simp only [cachedOrGenerate, hl, Option.some.injEq, Prod.mk.injEq] at h
    obtain ⟨h1, h2⟩ := h
    refine ⟨hexEncode (genBytes st size), ?_, ?_⟩
    · rw [← h2]
      exact lookupMap_insertMap_self _ _ _
    · rw [← h1]
      exact hexDecode_hexEncode _ (genBytes_lt st size)

theorem cachedOrGenerate_preserves {var : List Nat} {size : Nat} {st st' : SysState}
    {bs : List Nat} (h : cachedOrGenerate var size st = some (bs, st'))
    (w : List Nat) (hw : w ≠ var) :
    lookupMap st'.env w = lookupMap st.env w := by
  cases hl : lookupMap st.env var with
  | some hexv =>
    cases hd : hexDecode hexv with
    | some bytes =>
      simp only [cachedOrGenerate, hl, hd, Option.some.injEq, Prod.mk.injEq] at h
      rw [← h.2]
    | none => simp [cachedOrGenerate, hl, hd] at h
  | none =>
    simp only [cachedOrGenerate, hl, Option.some.injEq, Prod.mk.injEq] at h
    rw [← h.2]
    exact lookupMap_insertMap_ne _ _ _ _ hw

/-! ## C7 -/

/-- C7: for every cipher suite, a second `keys_generation` call on the state
left by a successful first call (the cached environment variables not
cleared in between) returns the identical `(key, nonce)` pair, and changes
nothing. -/
theorem keys_generation_idempotent (ct : CipherType) (st : SysState)
    (p : List Nat × List Nat) (st' : SysState)
    (h : keys_generation ct st = some (p, st')) :
    keys_generation ct st' = some (p, st') := by
  cases hk : cachedOrGenerate (keyVarName ct) ct.key_size st with
  | none => simp [keys_generation, hk] at h
  | some kres =>
    obtain ⟨key, st1⟩ := kres
    cases hn : cachedOrGenerate (nonceVarName ct) ct.nonce_size st1 with
    | none => simp [keys_generation, hk, hn] at h
    | some nres =>
      obtain ⟨nonce, st2⟩ := nres
      simp only [keys_generation, hk, hn, Option.some.injEq, Prod.mk.injEq] at h
      obtain ⟨hp, hst⟩ := h
      subst hp
      subst hst
      obtain ⟨khex, hk1, hk2⟩ := cachedOrGenerate_stable hk
      have hkey2 : lookupMap st2.env (keyVarName ct) = some khex := by
        rw [cachedOrGenerate_preserves hn _ (keyVarName_ne_nonceVarName ct), hk1]
      obtain ⟨nhex, hn1, hn2⟩ := cachedOrGenerate_stable hn
      simp [keys_generation, cachedOrGenerate_cached hkey2 hk2,
        cachedOrGenerate_cached hn1 hn2]

/-- C7 witness: with both variables cached, the first call returns the pair
and leaves the state unchanged, and the second call returns the same pair. -/
theorem keys_generation_idempotent_witness :
    keys_generation .AES256GCM
        { env := [(keyVarName .AES256GCM, hexEncode (List.replicate 32 9)),
                  (nonceVarName .AES256GCM, hexEncode (List.replicate 12 4))],
          rng := fun _ => 0, cursor := 0 } =
      some ((List.replicate 32 9, List.replicate 12 4),
        { env := [(keyVarName .AES256GCM, hexEncode (List.replicate 32 9)),
                  (nonceVarName .AES256GCM, hexEncode (List.replicate 12 4))],
          rng := fun _ => 0, cursor := 0 }) :=
  keys_generation_idempotent .AES256GCM
    { env := [(keyVarName .AES256GCM, hexEncode (List.replicate 32 9)),
              (nonceVarName .AES256GCM, hexEncode (List.replicate 12 4))],
      rng := fun _ => 0, cursor := 0 }
    (List.replicate 32 9, List.replicate 12 4)
    { env := [(keyVarName .AES256GCM, hexEncode (List.replicate 32 9)),
              (nonceVarName .AES256GCM, hexEncode (List.replicate 12 4))],
      rng := fun _ => 0, cursor := 0 }
    rfl

/-! ## C10 -/

/-- C10: `keys_generation` performs no length validation on cached values:
whatever valid-hex strings the two environment variables hold, the decoded
bytes are returned as-is (any lengths), and the state is unchanged. -/
theorem keys_generation_no_length_validation (ct : CipherType) (st : SysState)
    (khex nhex kval nval : List Nat)
    (hk : lookupMap st.env (keyVarName ct) = some khex)
    (hkd : hexDecode khex = some kval)
    (hn : lookupMap st.env (nonceVarName ct) = some nhex)
    (hnd : hexDecode nhex = some nval) :
    keys_generation ct st = some ((kval, nval), st) := by
  simp [keys_generation, cachedOrGenerate_cached hk hkd, cachedOrGenerate_cached hn hnd]

/-- C10 witness: a 5-byte cached key and a 3-byte cached nonce are returned
as-is, though the suite's sizes are 32 and 12. -/
theorem keys_generation_no_length_validation_witness :
    keys_generation .AES256GCM
        { env := [(keyVarName .AES256GCM, hexEncode [1, 2, 3, 4, 5]),
                  (nonceVarName .AES256GCM, hexEncode [7, 8, 9])],
          rng := fun _ => 0, cursor := 0 } =
      some (([1, 2, 3, 4, 5], [7, 8, 9]),
        { env := [(keyVarName .AES256GCM, hexEncode [1, 2, 3, 4, 5]),
                  (nonceVarName .AES256GCM, hexEncode [7, 8, 9])],
          rng := fun _ => 0, cursor := 0 }) :=
  keys_generation_no_length_validation .AES256GCM _
    (hexEncode [1, 2, 3, 4, 5]) (hexEncode [7, 8, 9]) [1, 2, 3, 4, 5] [7, 8, 9]
    (by decide) (by decide) (by decide) (by decide)

/-! ## C4 -/

/-- C4 counterexample: in state `stX` the nonce variable is absent, so by the
claim the cached-versus-generated decision would fall to generation for both
fields — the returned key would have to be the 32 fresh RNG bytes
`genBytes stX 32` (all 1) with a fresh hex stored into the key variable.
The code instead returns the cached decoded key (32 zero bytes, different
from the fresh bytes) and leaves the key variable unchanged: the decision
is per field, not for the pair as a whole. -/
theorem keys_generation_pair_decision_counterexample :
    lookupMap stX.env (nonceVarName .ChaCha20Poly1305) = none ∧
    (keys_generation .ChaCha20Poly1305 stX).map (fun r => r.1.1) =
      some (List.replicate 32 0) ∧
    List.replicate 32 0 ≠ genBytes stX (CipherType.key_size .ChaCha20Poly1305) ∧
    (keys_generation .ChaCha20Poly1305 stX).map
        (fun r => lookupMap r.2.env (keyVarName .ChaCha20Poly1305)) =
      some (some (hexEncode (List.replicate 32 0))) := by
  refine ⟨rfl, ?_, by decide, ?_⟩ <;> decide

/-- C4 amended: the cached-versus-generated decision is made per field.  For
each of `{label}_KEY` and `{label}_NONCE` independently: if the variable is
present its value must be valid hex (otherwise the call fails) and its
decode is returned for that field alone; if it is absent, fresh random bytes
of that field's size are generated, hex-stored into that variable, and
returned.  The two mixed cases below exhibit this. -/
theorem keys_generation_per_field :
    (∀ (ct : CipherType) (st : SysState) (khex kval : List Nat),
      lookupMap st.env (keyVarName ct) = some khex → hexDecode khex = some kval →
      lookupMap st.env (nonceVarName ct) = none →
      keys_generation ct st =
        some ((kval, genBytes st ct.nonce_size),
          { env := insertMap st.env (nonceVarName ct)
              (hexEncode (genBytes st ct.nonce_size)),
            rng := st.rng, cursor := st.cursor + ct.nonce_size })) ∧
    (∀ (ct : CipherType) (st : SysState) (nhex nval : List Nat),
      lookupMap st.env (keyVarName ct) = none →
      lookupMap st.env (nonceVarName ct) = some nhex → hexDecode nhex = some nval →
      keys_generation ct st =
        some ((genBytes st ct.key_size, nval),
          { env := insertMap st.env (keyVarName ct)
              (hexEncode (genBytes st ct.key_size)),
            rng := st.rng, cursor := st.cursor + ct.key_size })) := by
  constructor
  · intro ct st khex kval hk hkd hn
    simp [keys_generation, cachedOrGenerate, hk, hkd, hn]
  · intro ct st nhex nval hk hn hnd
    have hne : nonceVarName ct ≠ keyVarName ct :=
      fun h => keyVarName_ne_nonceVarName ct h.symm
    simp [keys_generation, cachedOrGenerate, hk, hn, hnd,
      lookupMap_insertMap_ne _ _ _ _ hne]

/-- C4 amended witness: key cached, nonce absent — the key is returned from
the cache while only the nonce is freshly generated and stored. -/
theorem keys_generation_per_field_witness :
    keys_generation .ChaCha20Poly1305 stX =
      some ((List.replicate 32 0, genBytes stX (CipherType.nonce_size .ChaCha20Poly1305)),
        { env := insertMap stX.env (nonceVarName .ChaCha20Poly1305)
            (hexEncode (genBytes stX (CipherType.nonce_size .ChaCha20Poly1305))),
          rng := stX.rng,
          cursor := stX.cursor + CipherType.nonce_size .ChaCha20Poly1305 }) :=
  keys_generation_per_field.1 .ChaCha20Poly1305 stX
    (hexEncode (List.replicate 32 0)) (List.replicate 32 0)
    (by decide) (by decide) (by decide)

/-! ## C2 -/

/-- C2: `decrypt_env` never uses its caller-supplied nonce parameter (the
result is the same for any two values of it), and for an entry whose stored
payload hex-decodes to at least `nonce_size` bytes, the AEAD decrypt is
invoked with the first `nonce_size` decoded bytes as the nonce and the
remaining bytes as the ciphertext. -/
theorem decrypt_env_embedded_nonce :
    (∀ e ct (key n1 n2 : List Nat),
      decrypt_env e ct key n1 = decrypt_env e ct key n2) ∧
    (∀ (name enc combined : List Nat) rest ct (key n : List Nat),
      hexDecode enc = some combined → ¬ combined.length < ct.nonce_size →
      decrypt_env ((name, enc) :: rest) ct key n =
        match decrypt ct key (combined.take ct.nonce_size)
            (combined.drop ct.nonce_size) with
        | none => .error .decryptionFailure
        | some d =>
          if isValidUtf8 d then
            (decrypt_env rest ct key n).map (fun r => (name, d) :: r)
          else .error .invalidUtf8) := by
  constructor
  · intro e ct key n1 n2
    induction e with
    | nil => rfl
    | cons hd rest ih =>
      obtain ⟨name, enc⟩ := hd
      simp only [decrypt_env]
      cases hd : hexDecode enc with
      | none => exact ih
      | some combined =>
        by_cases hlen : combined.length < ct.nonce_size
        · simp only [if_pos hlen]
          exact ih
        · simp only [if_neg hlen]
          cases decrypt ct key (combined.take ct.nonce_size)
              (combined.drop ct.nonce_size) with
          | none => rfl
          | some d =>
            by_cases hu : isValidUtf8 d
            · simp only [if_pos hu, ih]
            · simp only [if_neg hu]
  · intro name enc combined rest ct key n hd hlen
    simp only [decrypt_env, hd, if_neg hlen]

/-- C2 witness: a one-entry store whose payload is 12 zero bytes and one
extra byte, decrypted with an unrelated caller nonce `[1, 2, 3]`. -/
theorem decrypt_env_embedded_nonce_witness :
    decrypt_env [([65], hexEncode (List.replicate 12 0 ++ [5]))] .ChaCha20Poly1305
        (List.replicate 32 0) [1, 2, 3] =
      match decrypt .ChaCha20Poly1305 (List.replicate 32 0)
          ((List.replicate 12 0 ++ [5]).take (CipherType.nonce_size .ChaCha20Poly1305))
          ((List.replicate 12 0 ++ [5]).drop (CipherType.nonce_size .ChaCha20Poly1305)) with
      | none => .error .decryptionFailure
      | some d =>
        if isValidUtf8 d then
          (decrypt_env [] .ChaCha20Poly1305 (List.replicate 32 0) [1, 2, 3]).map
            (fun r => ([65], d) :: r)
        else .error .invalidUtf8 :=
  decrypt_env_embedded_nonce.2 [65] (hexEncode (List.replicate 12 0 ++ [5]))
    (List.replicate 12 0 ++ [5]) [] .ChaCha20Poly1305 (List.replicate 32 0) [1, 2, 3]
    (by decide) (by decide)

/-! ## C5 -/

/-- C5: in `decrypt_env`, an entry with invalid hex, or whose decoded
payload is shorter than the suite's nonce size, is skipped while the
remaining entries are still processed; but invalid UTF-8 in decrypted bytes
aborts the whole batch with an error (and a successfully decrypted valid
entry is exposed in the result). -/
theorem decrypt_env_error_isolation :
    (∀ (name enc : List Nat) rest ct (key n : List Nat), hexDecode enc = none →
      decrypt_env ((name, enc) :: rest) ct key n = decrypt_env rest ct key n) ∧
    (∀ (name enc combined : List Nat) rest ct (key n : List Nat),
      hexDecode enc = some combined → combined.length < ct.nonce_size →
      decrypt_env ((name, enc) :: rest) ct key n = decrypt_env rest ct key n) ∧
    (∀ (name enc combined : List Nat) rest ct (key n d : List Nat),
      hexDecode enc = some combined → ¬ combined.length < ct.nonce_size →
      decrypt ct key (combined.take ct.nonce_size) (combined.drop ct.nonce_size) =
        some d →
      isValidUtf8 d = false →
      decrypt_env ((name, enc) :: rest) ct key n = .error .invalidUtf8) ∧
    (∀ (name enc combined : List Nat) rest ct (key n d : List Nat),
      hexDecode enc = some combined → ¬ combined.length < ct.nonce_size →
      decrypt ct key (combined.take ct.nonce_size) (combined.drop ct.nonce_size) =
        some d →
      isValidUtf8 d = true →
      decrypt_env ((name, enc) :: rest) ct key n =
        (decrypt_env rest ct key n).map (fun r => (name, d) :: r)) := by
  refine ⟨?_, ?_, ?_, ?_⟩
  · intro name enc rest ct key n hd
    simp only [decrypt_env, hd]
  · intro name enc combined rest ct key n hd hlen
    simp only [decrypt_env, hd, if_pos hlen]
  · intro name enc combined rest ct key n d hd hlen hdec hu
    simp only [decrypt_env, hd, if_neg hlen, hdec, hu, Bool.false_eq_true, if_false]
  · intro name enc combined rest ct key n d hd hlen hdec hu
    simp only [decrypt_env, hd, if_neg hlen, hdec, hu, if_true]

/-- C5 witness: a store whose first entry is invalid hex (`"z"`, byte 122)
is skipped, the processing continuing with the remaining (valid) entry. -/
theorem decrypt_env_error_isolation_witness :
    decrypt_env
        [([66], [122]),
         ([65], hexEncode (List.replicate 12 0 ++
            aeadEncrypt (suiteConst .ChaCha20Poly1305) (List.replicate 32 0)
              (List.replicate 12 0) (bytesOfAscii "abc123")))]
        .ChaCha20Poly1305 (List.replicate 32 0) [0] =
      decrypt_env
        [([65], hexEncode (List.replicate 12 0 ++
            aeadEncrypt (suiteConst .ChaCha20Poly1305) (List.replicate 32 0)
              (List.replicate 12 0) (bytesOfAscii "abc123")))]
        .ChaCha20Poly1305 (List.replicate 32 0) [0] :=
  decrypt_env_error_isolation.1 [66] [122] _ _ _ _ (by decide)

/-! ## C8 -/

theorem splitOnce_not_mem {sep : Nat} : ∀ {l : List Nat}, sep ∉ l →
    splitOnce sep l = none := by
  intro l
  induction l with
  | nil => intro _; rfl
  | cons b rest ih =>
    intro h
    have hb : b ≠ sep := fun he => h (he ▸ List.mem_cons_self b rest)
    unfold splitOnce
    rw [if_neg hb, ih (fun hs => h (List.mem_cons_of_mem _ hs))]
    rfl

theorem splitOnce_first {sep : Nat} : ∀ (a b : List Nat), sep ∉ a →
    splitOnce sep (a ++ sep :: b) = some (a, b) := by
  intro a
  induction a with
  | nil => intro b _; simp [splitOnce]
  | cons x xs ih =>
    intro b h
    have hx : x ≠ sep := fun he => h (he ▸ List.mem_cons_self x xs)
    simp [List.cons_append, splitOnce, if_neg hx,
      ih b (fun hs => h (List.mem_cons_of_mem _ hs))]

/-- C8: `read_env_enc` returns an empty mapping when the store file is
absent; for an existing file it folds the parsing step over the lines,
where a line with an `=` is split at the first `=` into name and value with
both parts trimmed, and a line without `=` is skipped. -/
theorem read_env_enc_spec :
    read_env_enc none = [] ∧
    (∀ s, read_env_enc (some s) = (rustLines s).foldl parseLine []) ∧
    (∀ m (a b : List Nat), (61 : Nat) ∉ a →
      parseLine m (a ++ 61 :: b) = insertMap m (trim a) (trim b)) ∧
    (∀ m (l : List Nat), (61 : Nat) ∉ l → parseLine m l = m) := by
  refine ⟨rfl, fun s => rfl, ?_, ?_⟩
  · intro m a b ha
    simp only [parseLine, splitOnce_first a b ha]
  · intro m l hl
    simp only [parseLine, splitOnce_not_mem hl]

/-- C8 witness: the line `A = B` (with spaces) parses to the trimmed entry,
and a separator-free line is skipped. -/
theorem read_env_enc_spec_witness :
    parseLine [] ([65, 32] ++ 61 :: [32, 66]) =
      insertMap [] (trim [65, 32]) (trim [32, 66]) :=
  read_env_enc_spec.2.2.1 [] [65, 32] [32, 66] (by decide)

/-! ## C3 -/

theorem encrypt_of_lengths {ct : CipherType} {key nonce : List Nat}
    (hk : key.length = ct.key_size) (hn : nonce.length = ct.nonce_size)
    (p : List Nat) :
    encrypt ct key nonce p = some (aeadEncrypt (suiteConst ct) key nonce p) := by
  cases ct <;>
    simp only [encrypt, CipherType.key_size, CipherType.nonce_size] at hk hn ⊢ <;>
    rw [if_pos ⟨hk, hn⟩]

theorem hexEncode_not_ws {bs : List Nat} : ∀ c ∈ hexEncode bs, isWhitespaceByte c = false := by
  intro c hc
  rcases mem_hexEncode bs c hc with h | h <;> simp [isWhitespaceByte] <;> omega

theorem hexEncode_not_61 {bs : List Nat} : (61 : Nat) ∉ hexEncode bs := by
  intro h
  rcases mem_hexEncode bs 61 h with h' | h' <;> omega

theorem hexEncode_not_10 {bs : List Nat} : (10 : Nat) ∉ hexEncode bs := by
  intro h
  rcases mem_hexEncode bs 10 h with h' | h' <;> omega

theorem hexEncode_not_13 {bs : List Nat} : (13 : Nat) ∉ hexEncode bs := by
  intro h
  rcases mem_hexEncode bs 13 h with h' | h' <;> omega

theorem dropWhile_eq_self_of (p : Nat → Bool) (l : List Nat)
    (h : ∀ b ∈ l, p b = false) : l.dropWhile p = l := by
  cases l with
  | nil => rfl
  | cons x xs =>
    rw [List.dropWhile_cons, h x (List.mem_cons_self x xs)]
    simp

theorem trim_eq_self {s : List Nat} (h : ∀ b ∈ s, isWhitespaceByte b = false) :
    trim s = s := by
  unfold trim
  rw [dropWhile_eq_self_of _ _ h,
    dropWhile_eq_self_of _ _ (fun b hb => h b (List.mem_reverse.mp hb)),
    List.reverse_reverse]

theorem splitOnByte_append_sep {sep : Nat} : ∀ (l : List Nat), sep ∉ l →
    splitOnByte sep (l ++ [sep]) = [l, []] := by
  intro l
  induction l with
  | nil => intro _; simp [splitOnByte]
  | cons x xs ih =>
    intro h
    have hx : x ≠ sep := fun he => h (he ▸ List.mem_cons_self x xs)
    simp [List.cons_append, splitOnByte, if_neg hx,
      ih (fun hs => h (List.mem_cons_of_mem _ hs))]

theorem stripCR_eq_self {l : List Nat} (h : (13 : Nat) ∉ l) : stripCR l = l := by
  unfold stripCR
  split
  · rename_i hl
    exact absurd (List.mem_of_mem_getLast? hl) h
  · rfl

theorem rustLines_single {l : List Nat} (h10 : (10 : Nat) ∉ l)
    (h13 : (13 : Nat) ∉ l) :
    rustLines (l ++ [10]) = [l] := by
  unfold rustLines
  rw [splitOnByte_append_sep l h10]
  simp [stripCR_eq_self h13]

theorem parse_single_line {name hv : List Nat} (h61 : (61 : Nat) ∉ name)
    (htr : trim name = name) (htv : trim hv = hv) :
    parseLines [name ++ 61 :: hv] = [(name, hv)] := by
  simp only [parseLines, List.foldl, parseLine, splitOnce_first name hv h61, htr, htv]
  rfl

/-- C3: starting from an absent store file, `set_enc_env(X, v1)` writes the
hex of `nonce ‖ ciphertext-of-v1` under `X`; a second `set_enc_env(X, v2)`
with `v1 ≠ v2` reports "already exists" (the flag, not an error) and leaves
the file unchanged, so the stored value for `X` is still the encryption of
`v1`. -/
theorem set_enc_env_first_write_wins (var_name v1 v2 : List Nat)
    (ct : CipherType) (key nonce : List Nat)
    (hk : key.length = ct.key_size) (hn : nonce.length = ct.nonce_size)
    (hv12 : v1 ≠ v2) (h61 : (61 : Nat) ∉ var_name) (h10 : (10 : Nat) ∉ var_name)
    (h13 : (13 : Nat) ∉ var_name) (htr : trim var_name = var_name) :
    ∃ c1 content1,
      encrypt ct key nonce v1 = some c1 ∧
      set_enc_env var_name v1 ct key nonce none = some (some content1, false) ∧
      set_enc_env var_name v2 ct key nonce (some content1) =
        some (some content1, true) ∧
      lookupMap (read_env_enc (some content1)) var_name =
        some (hexEncode (nonce ++ c1)) := by
  obtain ⟨c1, hc1⟩ : ∃ c1, encrypt ct key nonce v1 = some c1 :=
    ⟨_, encrypt_of_lengths hk hn v1⟩
  obtain ⟨c2, hc2⟩ : ∃ c2, encrypt ct key nonce v2 = some c2 :=
    ⟨_, encrypt_of_lengths hk hn v2⟩
  refine ⟨c1, (var_name ++ 61 :: hexEncode (nonce ++ c1)) ++ [10], hc1, ?_, ?_, ?_⟩
  · simp only [set_enc_env, hc1]
    simp [lookupMap, writeEnvFile, insertMap]
  · have h10l : (10 : Nat) ∉ var_name ++ 61 :: hexEncode (nonce ++ c1) := by
      intro hmem
      rcases List.mem_append.mp hmem with h' | h'
      · exact h10 h'
      · rcases List.mem_cons.mp h' with h'' | h''
        · omega
        · exact hexEncode_not_10 h''
    have h13l : (13 : Nat) ∉ var_name ++ 61 :: hexEncode (nonce ++ c1) := by
      intro hmem
      rcases List.mem_append.mp hmem with h' | h'
      · exact h13 h'
      · rcases List.mem_cons.mp h' with h'' | h''
        · omega
        · exact hexEncode_not_13 h''
    have hparse : parseLines (rustLines
        ((var_name ++ 61 :: hexEncode (nonce ++ c1)) ++ [10])) =
        [(var_name, hexEncode (nonce ++ c1))] := by
      rw [rustLines_single h10l h13l,
        parse_single_line h61 htr (trim_eq_self hexEncode_not_ws)]
    simp only [set_enc_env, hc2, hparse]
    simp [lookupMap]
  · have h10l : (10 : Nat) ∉ var_name ++ 61 :: hexEncode (nonce ++ c1) := by
      intro hmem
      rcases List.mem_append.mp hmem with h' | h'
      · exact h10 h'
      · rcases List.mem_cons.mp h' with h'' | h''
        · omega
        · exact hexEncode_not_10 h''
    have h13l : (13 : Nat) ∉ var_name ++ 61 :: hexEncode (nonce ++ c1) := by
      intro hmem
      rcases List.mem_append.mp hmem with h' | h'
      · exact h13 h'
      · rcases List.mem_cons.mp h' with h'' | h''
        · omega
        · exact hexEncode_not_13 h''
    have hparse : parseLines (rustLines
        ((var_name ++ 61 :: hexEncode (nonce ++ c1)) ++ [10])) =
        [(var_name, hexEncode (nonce ++ c1))] := by
      rw [rustLines_single h10l h13l,
        parse_single_line h61 htr (trim_eq_self hexEncode_not_ws)]
    simp only [read_env_enc, hparse]
    simp [lookupMap]

/-- C3 witness: the concrete scenario with name `X` (byte 88), values `a`
and `b`, and the all-zero ChaCha20-Poly1305 key and nonce. -/
theorem set_enc_env_first_write_wins_witness :
    ∃ c1 content1,
      encrypt .ChaCha20Poly1305 (List.replicate 32 0) (List.replicate 12 0) [97] =
        some c1 ∧
      set_enc_env [88] [97] .ChaCha20Poly1305 (List.replicate 32 0)
          (List.replicate 12 0) none = some (some content1, false) ∧
      set_enc_env [88] [98] .ChaCha20Poly1305 (List.replicate 32 0)
          (List.replicate 12 0) (some content1) = some (some content1, true) ∧
      lookupMap (read_env_enc (some content1)) [88] =
        some (hexEncode (List.replicate 12 0 ++ c1)) :=
  set_enc_env_first_write_wins [88] [97] [98] .ChaCha20Poly1305
    (List.replicate 32 0) (List.replicate 12 0)
    (by decide) (by decide) (by decide) (by decide) (by decide) (by decide) (by decide)

end EnvEnc
